import Mathlib

/-!
Shallow embedding of `src/REPORT_COMBINER.py` (report-combining script):
`HeaderMapper` (positional-frequency header reconciliation), `FileData`
(per-file row parsing) and `FileHandler` (aggregation and output assembly),
together with proofs about the embedded operations.

A file is modelled as the list of its raw lines, each line carrying its
trailing newline exactly as Python file iteration yields it.  Python `dict`s
that are only ever assigned to and looked up (never iterated) are modelled as
association lists of assignments in program order, with last-assignment-wins
lookup.  Exceptions that the source can raise (`StopIteration` from
`file_obj.next()`, `IndexError` from `line[0]` on an empty string) are
modelled with `Except`.
-/

namespace ReportCombiner

/-- Python whitespace characters (the set recognised by `str.isspace` and
bare `str.rstrip`). -/
def pyWhitespace (c : Char) : Bool :=
  c = ' ' || c = '\t' || c = '\n' || c = '\x0d' || c = '\x0b' || c = '\x0c'

/-- Python `s.isspace()`: `s` is nonempty and all of its characters are
whitespace. -/
def pyIsSpace (s : String) : Bool :=
  !s.data.isEmpty && s.data.all pyWhitespace

/-- Python `s.rstrip()` (no argument): strip all trailing whitespace. -/
def pyRstrip (s : String) : String :=
  ⟨(s.data.reverse.dropWhile pyWhitespace).reverse⟩

/-- Python `s.rstrip(c)` for a one-character argument: strip all trailing
occurrences of `c`. -/
def pyRstripChar (s : String) (c : Char) : String :=
  ⟨(s.data.reverse.dropWhile (· = c)).reverse⟩

/-- If `sep` is an initial segment of `l`, return the remainder. -/
def stripSep : List Char → List Char → Option (List Char)
  | [], l => some l
  | _ :: _, [] => none
  | c :: cs, x :: xs => if x = c then stripSep cs xs else none

/-- Fuel-driven splitter over character lists; with `sep ≠ []` and enough
fuel it computes Python `str.split(sep)`. -/
def splitFuel (sep : List Char) : Nat → List Char → List (List Char)
  | _, [] => [[]]
  | 0, l => [l]
  | fuel + 1, x :: xs =>
    match stripSep sep (x :: xs) with
    | some rest => [] :: splitFuel sep fuel rest
    | none =>
      match splitFuel sep fuel xs with
      | [] => [[x]]
      | y :: ys => (x :: y) :: ys

/-- Python `s.split(sep)` for a nonempty separator string (the source never
calls `split` with an empty separator; Python would raise `ValueError`). -/
def pySplit (s sep : String) : List String :=
  if sep.data.isEmpty then [s]
  else (splitFuel sep.data s.data.length s.data).map String.mk

/-- Structural lexicographic comparison of character sequences (equivalent
to `String` order, see `lexLe_iff_le`; used so that comparisons reduce in
the kernel). -/
def lexLe : List Char → List Char → Bool
  | [], _ => true
  | _ :: _, [] => false
  | c :: cs, d :: ds => if c = d then lexLe cs ds else decide (c < d)

/-- Lookup in a Python dict modelled as the list of its assignments in
program order: the last assignment to the key wins. -/
def pyDictGet {α : Type} (m : List (String × α)) (k : String) : Option α :=
  m.foldl (fun acc kv => if kv.1 = k then some kv.2 else acc) none

/-! ## HeaderMapper

The mapper's state is the list of header arrays registered so far.  The
source's `header_counts` (position ↦ column name ↦ count) is recovered as a
derived view: the count of name `c` at slot `p` is the number of registered
headers whose `p`-th entry is `c`.  `header_values` is write-only in the
source and is not modelled. -/

/-- `HeaderMapper.add_header_arr`: register one file's header. -/
def addHeaderArr (hs : List (List String)) (h : List String) : List (List String) :=
  hs ++ [h]

/-- `header_counts[p][c]` of the source: how many registered headers carry
column name `c` at slot `p`. -/
def slotCount (hs : List (List String)) (p : Nat) (c : String) : Nat :=
  (hs.filterMap (fun h => h[p]?)).count c

/-- The set of keys of `header_counts[p]`: the distinct column names seen at
slot `p`. -/
def slotNames (hs : List (List String)) (p : Nat) : List String :=
  (hs.filterMap (fun h => h[p]?)).dedup

/-- The ordering used at one slot by `set_final_header`:
`sorted(keys, key=count, reverse=True)`, i.e. descending count; the source's
tie order among equal counts is CPython dict iteration order, instantiated
here with the lexicographic tie-break the specification fixes as the
deterministic reading. -/
def slotRel (hs : List (List String)) (p : Nat) (a b : String) : Prop :=
  slotCount hs p b < slotCount hs p a ∨
    (slotCount hs p a = slotCount hs p b ∧ lexLe a.data b.data = true)

instance slotRelDec (hs : List (List String)) (p : Nat) : DecidableRel (slotRel hs p) :=
  fun a b =>
    inferInstanceAs (Decidable (slotCount hs p b < slotCount hs p a ∨
      (slotCount hs p a = slotCount hs p b ∧ lexLe a.data b.data = true)))

/-- One slot's names in the order `set_final_header` visits them. -/
def sortedSlot (hs : List (List String)) (p : Nat) : List String :=
  List.insertionSort (slotRel hs p) (slotNames hs p)

/-- The largest header length registered; `sorted(self.header_counts)`
iterates exactly the slots `0, …, maxHeaderLen - 1`. -/
def maxHeaderLen (hs : List (List String)) : Nat :=
  hs.foldr (fun h m => max h.length m) 0

/-- Append each name of `cs` to `acc` unless it is already present
(the `if column_id in self.header_order_final: continue` guard). -/
def appendNew (acc : List String) (cs : List String) : List String :=
  cs.foldl (fun a c => if c ∈ a then a else a ++ [c]) acc

/-- `HeaderMapper.set_final_header`: visit slots in ascending order and,
within a slot, names in descending-count order, appending unseen names. -/
def setFinalHeader (hs : List (List String)) : List String :=
  (List.range (maxHeaderLen hs)).foldl (fun acc p => appendNew acc (sortedSlot hs p)) []

/-- `HeaderMapper.get_header`; the source memoizes the result, which in this
pure model is the identity. -/
def getHeader (hs : List (List String)) : List String :=
  setFinalHeader hs

/-! ## FileHandler and FileData -/

/-- Exceptions the embedded source code can raise: `StopIteration` from
`file_obj.next()` on an exhausted file, `IndexError` from `line[0]` on an
empty string. -/
inductive PyError where
  | stopIteration
  | indexError
deriving DecidableEq

/-- A parsed row: the positional assignments `row[column_id] = field` in
program order (a Python dict under last-assignment-wins lookup). -/
abbrev Row := List (String × String)

/-- `FileHandler.read_header`: keep drawing lines until a non-empty
`rstrip`-ped line is found; skip it when it starts with `#` (or, dead in the
source because `rstrip` already ran, when it is all whitespace); split the
header line on the delimiter and return it with the remaining lines.
An exhausted file raises `StopIteration`; a line that `rstrip`s to the empty
string raises `IndexError` at `line[0]`. -/
def readHeader (delim : String) : List String → Except PyError (List String × List String)
  | [] => .error .stopIteration
  | line :: rest =>
    let l := pyRstrip line
    if l.data.isEmpty then .error .indexError
    else if l.data.head? = some '#' then readHeader delim rest
    else if pyIsSpace l then readHeader delim rest
    else .ok (pySplit l delim, rest)

/-- The test `line.isspace() or line[0] == '#'` of `FileData.read_data`,
evaluated left to right: `line[0]` raises `IndexError` on an empty string. -/
def skipJudge (line : String) : Except PyError Bool :=
  if pyIsSpace line then .ok true
  else
    match line.data.head? with
    | none => .error .indexError
    | some c => .ok (c = '#')

/-- `line.rstrip("\n").rstrip("\r").split(delimiter)` of
`FileData.read_data`. -/
def splitLine (delim line : String) : List String :=
  pySplit (pyRstripChar (pyRstripChar line '\n') '\x0d') delim

/-- `FileData.read_data`: skip blank and comment lines, split the rest, drop
lines whose field count differs from the header length (a diagnostic is
logged), and zip kept lines positionally against the header. -/
def readData (delim : String) (header : List String) : List String → Except PyError (List Row)
  | [] => .ok []
  | line :: rest => do
    let skip ← skipJudge line
    let tail ← readData delim header rest
    if skip then
      pure tail
    else
      let spl := splitLine delim line
      if spl.length = header.length then pure (header.zip spl :: tail)
      else pure tail

/-- The state a `FileData` instance holds after `__init__` (the
`header_length` attribute is `header_arr.length` and is not duplicated). -/
structure FileData where
  file_name : String
  header_arr : List String
  data_arr : List Row
deriving DecidableEq

/-- `FileData.get_ordered_output_array`: one output record per stored row,
optionally prefixed with the file name; each canonical column renders the
row's value when present, else the null value. -/
def getOrderedOutputArray (fd : FileData) (orderedArray : List String)
    (nullValue : String) (outputFileName : Bool) : List (List String) :=
  fd.data_arr.map (fun row =>
    (if outputFileName then [fd.file_name] else []) ++
      orderedArray.map (fun columnId =>
        match pyDictGet row columnId with
        | some v => v
        | none => nullValue))

/-- The state of a `FileHandler` instance.  `file_data_mapping` is the dict
`path ↦ FileData` as its list of assignments; `header_mapping` is the
`HeaderMapper` state (the registered headers). -/
structure FileHandler where
  delimiter : String
  file_name_arr : List String
  file_data_mapping : List (String × FileData)
  header_mapping : List (List String)
deriving DecidableEq

/-- `FileHandler.__init__`. -/
def initFileHandler (delim : String) : FileHandler :=
  ⟨delim, [], [], []⟩

/-- `FileHandler.add_file` on a file whose contents are `lines`: read the
header, append the path to `file_name_arr`, register the header, and store
the parsed `FileData` under the path (`d[path] = FileData(...)`).  Any
exception raised by `read_header` or `read_data` propagates uncaught (the
source has no try/except), aborting the run. -/
def addFile (st : FileHandler) (path : String) (lines : List String) :
    Except PyError FileHandler := do
  let hl ← readHeader st.delimiter lines
  let rows ← readData st.delimiter hl.1 hl.2
  pure { st with
    file_name_arr := st.file_name_arr ++ [path],
    header_mapping := addHeaderArr st.header_mapping hl.1,
    file_data_mapping := st.file_data_mapping ++ [(path, ⟨path, hl.1, rows⟩)] }

/-- `FileHandler.get_output_array`: the canonical header (optionally behind
a `file_path` label) followed by each listed file's projected rows, in
`file_name_arr` order.  In every state the source reaches, each name in
`file_name_arr` has an entry in `file_data_mapping`, so the `getD` default
is never used. -/
def getOutputArray (st : FileHandler) (nullValue : String) (outputFileName : Bool) :
    List (List String) :=
  let finalHeader := getHeader st.header_mapping
  let headRow := if outputFileName then "file_path" :: finalHeader else finalHeader
  st.file_name_arr.foldl
    (fun acc f =>
      acc ++ getOrderedOutputArray ((pyDictGet st.file_data_mapping f).getD ⟨"", [], []⟩)
        finalHeader nullValue outputFileName)
    [headRow]

/-- The length to which Python `zip(*array)` truncates: the least row
length, `0` for an empty array. -/
def zipStarLen (a : List (List String)) : Nat :=
  match a with
  | [] => 0
  | r :: rs => rs.foldl (fun m t => min m t.length) r.length

/-- Python `zip(*array)`: row `j` of the result collects entry `j` of every
row of `array`, for `j` below every row's length. -/
def zipStar (a : List (List String)) : List (List String) :=
  (List.range (zipStarLen a)).map (fun j => a.map (fun r => r.getD j ""))

/-- `FileHandler.get_output_array_transposed`. -/
def getOutputArrayTransposed (st : FileHandler) (nullValue : String)
    (outputFileName : Bool) : List (List String) :=
  zipStar (getOutputArray st nullValue outputFileName)

/-- The main loop: add each (path, contents) pair in order, starting from a
fresh handler. -/
def runFiles (delim : String) (files : List (String × List String)) :
    Except PyError FileHandler :=
  files.foldlM (fun st pf => addFile st pf.1 pf.2) (initFileHandler delim)

/-- Width every record of `get_output_array` has: the canonical header
length, plus one for the `file_path` column when requested. -/
def rowWidth (st : FileHandler) (outputFileName : Bool) : Nat :=
  (if outputFileName then 1 else 0) + (getHeader st.header_mapping).length

/-- The header `add_file` obtains for a file with the given contents (junk
on the error paths, where the run has already aborted). -/
def fileHeaderOf (delim : String) (lines : List String) : List String :=
  match readHeader delim lines with
  | .ok hl => hl.1
  | .error _ => []

/-- The `FileData` value `add_file` stores for path `path` with the given
contents (junk on the error paths, where the run has already aborted). -/
def fileDataOf (delim : String) (path : String) (lines : List String) : FileData :=
  match readHeader delim lines with
  | .ok hl =>
    match readData delim hl.1 hl.2 with
    | .ok rows => ⟨path, hl.1, rows⟩
    | .error _ => ⟨path, hl.1, []⟩
  | .error _ => ⟨path, [], []⟩

/-! ## Lemmas about the header reconciliation -/

lemma lexLe_iff_not_lex : ∀ as bs : List Char, lexLe as bs = true ↔ ¬ List.Lex (· < ·) bs as := by
  intro as
  induction as with
  | nil =>
    intro bs
    simp only [lexLe, true_iff]
    intro h; cases h
  | cons a as ih =>
    intro bs
    cases bs with
    | nil =>
      simp only [lexLe]
      constructor
      · intro h; cases h
      · intro h; exact absurd List.Lex.nil h
    | cons b bs =>
      simp only [lexLe]
      by_cases hab : a = b
      · subst hab
        rw [if_pos rfl, ih]
        constructor
        · intro h hlex
          cases hlex with
          | cons h' => exact h h'
          | rel h' => exact absurd h' (lt_irrefl a)
        · intro h hlex; exact h (List.Lex.cons hlex)
      · rw [if_neg hab]
        rcases lt_trichotomy a b with hlt | heq | hgt
        · simp only [decide_eq_true_eq, hlt, true_iff]
          intro hlex
          cases hlex with
          | cons _ => exact hab rfl
          | rel h' => exact absurd hlt (asymm h')
        · exact absurd heq hab
        · simp only [decide_eq_true_eq]
          constructor
          · intro h; exact absurd h (not_lt_of_gt hgt)
          · intro h; exact absurd (List.Lex.rel hgt) h

/-- `lexLe` on the character data is exactly the standard `String` order. -/
lemma lexLe_iff_le (a b : String) : lexLe a.data b.data = true ↔ a ≤ b := by
  rw [lexLe_iff_not_lex, String.le_iff_toList_le]
  have hlt : (b.toList < a.toList) = List.Lex (· < ·) b.toList a.toList := rfl
  have htl : ∀ s : String, s.toList = s.data := fun _ => rfl
  rw [htl, htl] at hlt
  rw [← hlt]
  exact not_lt

lemma slotRel_total (hs : List (List String)) (p : Nat) (a b : String) :
    slotRel hs p a b ∨ slotRel hs p b a := by
  rcases Nat.lt_trichotomy (slotCount hs p a) (slotCount hs p b) with h | h | h
  · exact Or.inr (Or.inl h)
  · rcases le_total a b with hab | hab
    · exact Or.inl (Or.inr ⟨h, (lexLe_iff_le a b).mpr hab⟩)
    · exact Or.inr (Or.inr ⟨h.symm, (lexLe_iff_le b a).mpr hab⟩)
  · exact Or.inl (Or.inl h)

lemma slotRel_trans (hs : List (List String)) (p : Nat) (a b c : String)
    (hab : slotRel hs p a b) (hbc : slotRel hs p b c) : slotRel hs p a c := by
  rcases hab with h1 | ⟨h1, h1'⟩ <;> rcases hbc with h2 | ⟨h2, h2'⟩
  · exact Or.inl (h2.trans h1)
  · exact Or.inl (h2 ▸ h1)
  · exact Or.inl (h1 ▸ h2)
  · refine Or.inr ⟨h1.trans h2, ?_⟩
    rw [lexLe_iff_le] at h1' h2' ⊢
    exact h1'.trans h2'

lemma appendNew_cons (acc : List String) (d : String) (cs : List String) :
    appendNew acc (d :: cs) = appendNew (if d ∈ acc then acc else acc ++ [d]) cs := rfl

lemma appendNew_singleton (acc : List String) (d : String) :
    appendNew acc [d] = if d ∈ acc then acc else acc ++ [d] := rfl

lemma mem_appendNew (c : String) (cs : List String) :
    ∀ acc, c ∈ appendNew acc cs ↔ c ∈ acc ∨ c ∈ cs := by
  induction cs with
  | nil => intro acc; simp [appendNew]
  | cons d cs ih =>
    intro acc
    rw [appendNew_cons, ih]
    by_cases hd : d ∈ acc <;> by_cases hc : c = d <;> simp [hd, hc]

lemma nodup_appendNew (cs : List String) :
    ∀ acc, acc.Nodup → (appendNew acc cs).Nodup := by
  induction cs with
  | nil => intro acc h; exact h
  | cons d cs ih =>
    intro acc h
    rw [appendNew_cons]
    apply ih
    by_cases hd : d ∈ acc
    · simpa [hd]
    · simp [hd, List.nodup_append, h]

lemma mem_foldSlots (hs : List (List String)) (c : String) (ps : List Nat) :
    ∀ acc, c ∈ ps.foldl (fun acc p => appendNew acc (sortedSlot hs p)) acc ↔
      c ∈ acc ∨ ∃ p ∈ ps, c ∈ sortedSlot hs p := by
  induction ps with
  | nil => intro acc; simp
  | cons p ps ih =>
    intro acc
    rw [List.foldl_cons, ih, mem_appendNew]
    constructor
    · rintro ((h | h) | ⟨q, hq, h⟩)
      · exact Or.inl h
      · exact Or.inr ⟨p, List.mem_cons_self p ps, h⟩
      · exact Or.inr ⟨q, List.mem_cons_of_mem p hq, h⟩
    · rintro (h | ⟨q, hq, h⟩)
      · exact Or.inl (Or.inl h)
      · rcases List.mem_cons.mp hq with rfl | hq
        · exact Or.inl (Or.inr h)
        · exact Or.inr ⟨q, hq, h⟩

lemma nodup_foldSlots (hs : List (List String)) (ps : List Nat) :
    ∀ acc, acc.Nodup → (ps.foldl (fun acc p => appendNew acc (sortedSlot hs p)) acc).Nodup := by
  induction ps with
  | nil => intro acc h; exact h
  | cons p ps ih => intro acc h; exact ih _ (nodup_appendNew _ _ h)

lemma mem_sortedSlot (hs : List (List String)) (p : Nat) (c : String) :
    c ∈ sortedSlot hs p ↔ ∃ h ∈ hs, h[p]? = some c := by
  unfold sortedSlot slotNames
  rw [List.mem_insertionSort, List.mem_dedup, List.mem_filterMap]

lemma length_le_maxHeaderLen (hs : List (List String)) (h : List String)
    (hmem : h ∈ hs) : h.length ≤ maxHeaderLen hs := by
  induction hs with
  | nil => cases hmem
  | cons h0 hs ih =>
    have hfold : maxHeaderLen (h0 :: hs) = max h0.length (maxHeaderLen hs) := rfl
    rcases List.mem_cons.mp hmem with rfl | hmem
    · rw [hfold]; exact Nat.le_max_left _ _
    · rw [hfold]; exact (ih hmem).trans (Nat.le_max_right _ _)

lemma foldl_addHeaderArr_acc (headers : List (List String)) :
    ∀ acc, headers.foldl addHeaderArr acc = acc ++ headers := by
  induction headers with
  | nil => intro acc; simp
  | cons h hs ih => intro acc; rw [List.foldl_cons]; rw [ih]; simp [addHeaderArr]

lemma foldl_addHeaderArr (headers : List (List String)) :
    headers.foldl addHeaderArr [] = headers := by
  simpa using foldl_addHeaderArr_acc headers []

/-- Claim C1: for every sequence of headers registered via `add_header_arr`,
the canonical header returned by `get_header` contains exactly the union of
all column names appearing in any registered header, each distinct name
exactly once. -/
theorem canonical_header_is_union (headers : List (List String)) :
    (getHeader (headers.foldl addHeaderArr [])).Nodup ∧
      ∀ c, c ∈ getHeader (headers.foldl addHeaderArr []) ↔ ∃ h ∈ headers, c ∈ h := by
  rw [foldl_addHeaderArr]
  unfold getHeader setFinalHeader
  refine ⟨nodup_foldSlots headers _ [] List.nodup_nil, fun c => ?_⟩
  rw [mem_foldSlots]
  simp only [List.not_mem_nil, false_or]
  constructor
  · rintro ⟨p, _, hc⟩
    obtain ⟨h, hh, hget⟩ := (mem_sortedSlot headers p c).mp hc
    obtain ⟨_, rfl⟩ := List.getElem?_eq_some_iff.mp hget
    exact ⟨h, hh, List.getElem_mem _⟩
  · rintro ⟨h, hh, hc⟩
    obtain ⟨n, hn, rfl⟩ := List.getElem_of_mem hc
    refine ⟨n, List.mem_range.mpr (lt_of_lt_of_le hn (length_le_maxHeaderLen headers h hh)), ?_⟩
    exact (mem_sortedSlot headers n _).mpr ⟨h, hh, List.getElem?_eq_getElem hn⟩

/-- Claim C4: within one slot, `set_final_header` visits column names in
descending order of the slot's frequency count, and names with equal counts
in lexicographic order (smaller name first); stated over `sortedSlot`, the
per-slot visiting order, with the spec-mandated deterministic lexicographic
instantiation of the source's unordered dict tie order. -/
theorem slot_visit_order_desc_count_lex_ties (hs : List (List String)) (p i j : Nat)
    (hij : i < j) (hj : j < (sortedSlot hs p).length) :
    slotCount hs p ((sortedSlot hs p).getD j "") ≤
        slotCount hs p ((sortedSlot hs p).getD i "") ∧
      (slotCount hs p ((sortedSlot hs p).getD i "") =
          slotCount hs p ((sortedSlot hs p).getD j "") →
        (sortedSlot hs p).getD i "" ≤ (sortedSlot hs p).getD j "") := by
  have hi : i < (sortedSlot hs p).length := hij.trans hj
  haveI : IsTotal String (slotRel hs p) := ⟨slotRel_total hs p⟩
  haveI : IsTrans String (slotRel hs p) := ⟨slotRel_trans hs p⟩
  have hsorted : List.Sorted (slotRel hs p) (sortedSlot hs p) :=
    List.sorted_insertionSort (slotRel hs p) (slotNames hs p)
  have hrel : slotRel hs p ((sortedSlot hs p).get ⟨i, hi⟩) ((sortedSlot hs p).get ⟨j, hj⟩) :=
    hsorted.rel_get_of_lt hij
  rw [List.getD_eq_getElem _ _ hi, List.getD_eq_getElem _ _ hj]
  have hgi : (sortedSlot hs p).get ⟨i, hi⟩ = (sortedSlot hs p)[i] := rfl
  have hgj : (sortedSlot hs p).get ⟨j, hj⟩ = (sortedSlot hs p)[j] := rfl
  rw [hgi, hgj] at hrel
  rcases hrel with hlt | ⟨heq, hle⟩
  · exact ⟨Nat.le_of_lt hlt, fun habs => absurd (habs ▸ hlt) (lt_irrefl _)⟩
  · exact ⟨Nat.le_of_eq heq.symm, fun _ => (lexLe_iff_le _ _).mp hle⟩

theorem slot_visit_order_desc_count_lex_ties_witness :
    slotCount [["b"], ["a"]] 0 ((sortedSlot [["b"], ["a"]] 0).getD 1 "") ≤
        slotCount [["b"], ["a"]] 0 ((sortedSlot [["b"], ["a"]] 0).getD 0 "") ∧
      (slotCount [["b"], ["a"]] 0 ((sortedSlot [["b"], ["a"]] 0).getD 0 "") =
          slotCount [["b"], ["a"]] 0 ((sortedSlot [["b"], ["a"]] 0).getD 1 "") →
        (sortedSlot [["b"], ["a"]] 0).getD 0 "" ≤ (sortedSlot [["b"], ["a"]] 0).getD 1 "") :=
  slot_visit_order_desc_count_lex_ties [["b"], ["a"]] 0 0 1 (by decide) (by decide)

lemma maxHeaderLen_replicate (k : Nat) (H : List String) (hk : 0 < k) :
    maxHeaderLen (List.replicate k H) = H.length := by
  induction k with
  | zero => cases hk
  | succ k ih =>
    rw [List.replicate_succ]
    have hfold : maxHeaderLen (H :: List.replicate k H) =
        max H.length (maxHeaderLen (List.replicate k H)) := rfl
    rw [hfold]
    rcases Nat.eq_zero_or_pos k with h0 | hpos
    · subst h0; simp [maxHeaderLen]
    · rw [ih hpos]; exact Nat.max_self _

lemma filterMap_replicate_getElem (k : Nat) (H : List String) (p : Nat) (c : String)
    (hc : H[p]? = some c) :
    (List.replicate k H).filterMap (fun h => h[p]?) = List.replicate k c := by
  induction k with
  | zero => rfl
  | succ k ih =>
    rw [List.replicate_succ, List.filterMap_cons, hc, ih, List.replicate_succ]

lemma dedup_replicate (k : Nat) (c : String) (hk : 0 < k) :
    (List.replicate k c).dedup = [c] := by
  induction k with
  | zero => cases hk
  | succ k ih =>
    rcases Nat.eq_zero_or_pos k with h0 | hpos
    · subst h0; simp
    · rw [List.replicate_succ,
        List.dedup_cons_of_mem (List.mem_replicate.mpr ⟨Nat.pos_iff_ne_zero.mp hpos, rfl⟩)]
      exact ih hpos

lemma sortedSlot_replicate (k : Nat) (H : List String) (p : Nat) (c : String) (hk : 0 < k)
    (hc : H[p]? = some c) :
    sortedSlot (List.replicate k H) p = [c] := by
  unfold sortedSlot slotNames
  rw [filterMap_replicate_getElem k H p c hc, dedup_replicate k c hk]
  rfl

lemma setFinalHeader_replicate (k : Nat) (H : List String) (hk : 0 < k) (hH : H.Nodup) :
    setFinalHeader (List.replicate k H) = H := by
  unfold setFinalHeader
  rw [maxHeaderLen_replicate k H hk]
  have main : ∀ n, n ≤ H.length →
      (List.range n).foldl
          (fun acc p => appendNew acc (sortedSlot (List.replicate k H) p)) [] =
        H.take n := by
    intro n
    induction n with
    | zero => intro _; simp
    | succ n ih =>
      intro hn
      have hn' : n < H.length := hn
      have hc : H[n]? = some H[n] := List.getElem?_eq_getElem hn'
      rw [List.range_succ, List.foldl_append, ih (Nat.le_of_lt hn'), List.foldl_cons,
        List.foldl_nil, sortedSlot_replicate k H n _ hk hc, appendNew_singleton]
      have hnd : (H.take (n + 1)).Nodup := hH.sublist (List.take_sublist _ _)
      rw [List.take_succ, hc] at hnd
      simp only [Option.toList_some] at hnd
      rw [List.nodup_append] at hnd
      have hnot : H[n] ∉ H.take n := by
        intro hmem
        exact hnd.2.2 hmem (List.mem_singleton_self _)
      rw [if_neg hnot, List.take_succ, hc]
      simp
  have := main H.length (Nat.le_refl _)
  rw [this, List.take_length]

/-- Claim C5 counterexample: a single registered header `["a", "a"]`
(duplicates are tolerated input) yields canonical header `["a"]`, not the
header verbatim. -/
theorem identical_headers_verbatim_counterexample :
    getHeader (addHeaderArr [] ["a", "a"]) ≠ ["a", "a"] := by decide

/-- Claim C5 (amended): if every registered input header is the identical
sequence `H` and `H` has pairwise-distinct column names, then the canonical
header returned by `get_header` equals `H` verbatim, in the same order, for
any number of files ≥ 1. -/
theorem identical_nodup_headers_verbatim (H : List String) (k : Nat) (hk : 0 < k)
    (hH : H.Nodup) :
    getHeader ((List.replicate k H).foldl addHeaderArr []) = H := by
  rw [foldl_addHeaderArr]
  exact setFinalHeader_replicate k H hk hH

theorem identical_nodup_headers_verbatim_witness :
    getHeader ((List.replicate 2 ["id", "name"]).foldl addHeaderArr []) = ["id", "name"] :=
  identical_nodup_headers_verbatim ["id", "name"] 2 (by decide) (by decide)

/-! ## Claims about error handling of the parsing code -/

/-- Claim C2 (code bug): on a file with no header line — empty, or exhausted
before any non-blank, non-comment line — `add_file` does not log-and-continue
with an empty row set; `file_obj.next()` raises `StopIteration`, which
nothing catches, so the run terminates.  The `return False` branch of
`read_header` and the `if not file_header` branch of `add_file` are
unreachable. -/
theorem headerless_file_raises_stopiteration :
    addFile (initFileHandler "\t") "empty.txt" [] = .error .stopIteration ∧
      addFile (initFileHandler "\t") "comments.txt" ["# only a comment\n"] =
        .error .stopIteration :=
  ⟨rfl, rfl⟩

/-- Claim C3 (code bug): a comment line before the header is skipped, and
comment and blank lines in the data section are skipped, but a blank line
before the header is NOT skipped: `read_header` rstrips it to `""` and then
`line[0]` raises an uncaught `IndexError` (the `line.isspace()` test sits
after the subscript and is unreachable). -/
theorem blank_line_before_header_raises_indexerror :
    readHeader "\t" ["# note\n", "a\tb\n", "1\t2\n"] = .ok (["a", "b"], ["1\t2\n"]) ∧
      readData "\t" ["a", "b"] ["# c\n", " \n", "1\t2\n"] =
        .ok [[("a", "1"), ("b", "2")]] ∧
      readHeader "\t" [" \n", "a\tb\n"] = .error .indexError :=
  ⟨rfl, rfl, rfl⟩

/-! ## Lemmas about the row parsing -/

lemma readData_cons (delim : String) (header : List String) (line : String)
    (rest : List String) :
    readData delim header (line :: rest) =
      (skipJudge line).bind (fun skip =>
        (readData delim header rest).bind (fun tail =>
          if skip then pure tail
          else if (splitLine delim line).length = header.length
            then pure (header.zip (splitLine delim line) :: tail)
            else pure tail)) := rfl

lemma skipJudge_not_skipped (line : String) (c : Char) (cs : List Char)
    (hdata : line.data = c :: cs) (hnb : pyIsSpace line = false) (hnc : c ≠ '#') :
    skipJudge line = .ok false := by
  unfold skipJudge
  rw [hnb, hdata]
  simp [hnc]

/-- Claim C6: a non-blank, non-comment data line whose split field count
differs from the header length contributes no row: `read_data` returns
exactly what it returns on the file with that line removed (the line is
discarded with a diagnostic and parsing continues with the subsequent
lines). -/
theorem mismatched_line_discarded (delim : String) (header : List String)
    (lines : List String) (i : Nat) (hi : i < lines.length)
    (hne : lines[i] ≠ "")
    (hnb : pyIsSpace lines[i] = false)
    (hnc : lines[i].data.head? ≠ some '#')
    (hmm : (splitLine delim lines[i]).length ≠ header.length) :
    readData delim header lines = readData delim header (lines.eraseIdx i) := by
  induction lines generalizing i with
  | nil => cases hi
  | cons l rest ih =>
    cases i with
    | zero =>
      have hne0 : l ≠ "" := hne
      have hdata : ∃ c cs, l.data = c :: cs := by
        cases hld : l.data with
        | nil => exact absurd (String.ext hld) hne0
        | cons c cs => exact ⟨c, cs, rfl⟩
      obtain ⟨c, cs, hld⟩ := hdata
      have hc : c ≠ '#' := by
        intro hc0
        apply hnc
        show l.data.head? = some '#'
        rw [hld, hc0]
        rfl
      have hsj : skipJudge l = .ok false := skipJudge_not_skipped l c cs hld hnb hc
      rw [List.eraseIdx_zero, List.tail_cons, readData_cons, hsj]
      cases hrd : readData delim header rest with
      | error e => rfl
      | ok tail =>
        show (if (splitLine delim l).length = header.length
            then pure (header.zip (splitLine delim l) :: tail)
            else pure tail : Except PyError (List Row)) = Except.ok tail
        have hmm0 : (splitLine delim l).length ≠ header.length := hmm
        rw [if_neg hmm0]
        rfl
    | succ n =>
      have hi' : n < rest.length := Nat.lt_of_succ_lt_succ hi
      have heq := ih n hi' (by simpa using hne) (by simpa using hnb)
        (by simpa using hnc) (by simpa using hmm)
      have hidx : (l :: rest).eraseIdx (n + 1) = l :: rest.eraseIdx n := rfl
      rw [hidx, readData_cons, readData_cons, heq]

theorem mismatched_line_discarded_witness :
    readData "\t" ["a", "b"] ["1\t2\n", "bad\n", "3\t4\n"] =
      readData "\t" ["a", "b"] (["1\t2\n", "bad\n", "3\t4\n"].eraseIdx 1) :=
  mismatched_line_discarded "\t" ["a", "b"] ["1\t2\n", "bad\n", "3\t4\n"] 1
    (by decide) (by decide) (by decide) (by decide) (by decide)

/-! ## Projection of rows onto the canonical header -/

/-- Claim C8: for every stored row and every canonical column name absent
from that row's mapping, the projected record carries exactly the configured
null value string at that column's position (one slot to the right when the
source-path column is prepended). -/
theorem missing_column_rendered_as_null (fd : FileData) (ordered : List String)
    (nullValue : String) (outputFileName : Bool) (i j : Nat)
    (hi : i < fd.data_arr.length) (hj : j < ordered.length)
    (hmiss : pyDictGet fd.data_arr[i] ordered[j] = none) :
    ((getOrderedOutputArray fd ordered nullValue outputFileName).getD i []).getD
        ((if outputFileName then 1 else 0) + j) "" = nullValue := by
  unfold getOrderedOutputArray
  have hi' : i < (fd.data_arr.map (fun row =>
      (if outputFileName then [fd.file_name] else []) ++
        ordered.map (fun columnId =>
          match pyDictGet row columnId with
          | some v => v
          | none => nullValue))).length := by
    simpa using hi
  rw [List.getD_eq_getElem _ _ hi', List.getElem_map]
  have hcell : ∀ row : Row, pyDictGet row ordered[j] = none →
      (ordered.map (fun columnId =>
        match pyDictGet row columnId with
        | some v => v
        | none => nullValue)).getD j "" = nullValue := by
    intro row hrow
    have hj' : j < (ordered.map (fun columnId =>
        match pyDictGet row columnId with
        | some v => v
        | none => nullValue)).length := by simpa using hj
    rw [List.getD_eq_getElem _ _ hj', List.getElem_map, hrow]
  cases outputFileName with
  | false =>
    simpa using hcell fd.data_arr[i] hmiss
  | true =>
    simpa [Nat.add_comm 1 j, List.getD_cons_succ] using hcell fd.data_arr[i] hmiss

theorem missing_column_rendered_as_null_witness :
    ((getOrderedOutputArray ⟨"f", ["a"], [[("a", "1")]]⟩ ["a", "b"] "None" false).getD 0 []).getD
        ((if false then 1 else 0) + 1) "" = "None" :=
  missing_column_rendered_as_null ⟨"f", ["a"], [[("a", "1")]]⟩ ["a", "b"] "None" false 0 1
    (by decide) (by decide) (by decide)

/-! ## Output assembly and transposition -/

lemma foldl_blocks_eq (g : String → List (List String)) (names : List String) :
    ∀ acc, names.foldl (fun acc f => acc ++ g f) acc = acc ++ (names.map g).flatten := by
  induction names with
  | nil => intro acc; simp
  | cons n ns ih => intro acc; rw [List.foldl_cons, ih]; simp

/-- `get_output_array` is the head row followed by the per-file blocks in
`file_name_arr` order. -/
lemma getOutputArray_eq_blocks (st : FileHandler) (nv : String) (ofn : Bool) :
    getOutputArray st nv ofn =
      (if ofn then "file_path" :: getHeader st.header_mapping
        else getHeader st.header_mapping) ::
      (st.file_name_arr.map (fun f =>
        getOrderedOutputArray ((pyDictGet st.file_data_mapping f).getD ⟨"", [], []⟩)
          (getHeader st.header_mapping) nv ofn)).flatten := by
  have h := foldl_blocks_eq (fun f =>
      getOrderedOutputArray ((pyDictGet st.file_data_mapping f).getD ⟨"", [], []⟩)
        (getHeader st.header_mapping) nv ofn) st.file_name_arr
    [if ofn then "file_path" :: getHeader st.header_mapping
      else getHeader st.header_mapping]
  exact h

lemma getOrderedOutputArray_row_length (fd : FileData) (ordered : List String)
    (nv : String) (ofn : Bool) (r : List String)
    (hr : r ∈ getOrderedOutputArray fd ordered nv ofn) :
    r.length = (if ofn then 1 else 0) + ordered.length := by
  unfold getOrderedOutputArray at hr
  obtain ⟨row, _, rfl⟩ := List.mem_map.mp hr
  cases ofn <;> simp [Nat.add_comm]

lemma getOutputArray_row_length (st : FileHandler) (nv : String) (ofn : Bool) :
    ∀ r ∈ getOutputArray st nv ofn, r.length = rowWidth st ofn := by
  intro r hr
  rw [getOutputArray_eq_blocks] at hr
  unfold rowWidth
  rcases List.mem_cons.mp hr with rfl | hr
  · cases ofn <;> simp [Nat.add_comm]
  · obtain ⟨block, hb, hrb⟩ := List.mem_flatten.mp hr
    obtain ⟨f, _, rfl⟩ := List.mem_map.mp hb
    exact getOrderedOutputArray_row_length _ _ _ _ _ hrb

lemma foldl_min_const (w : Nat) (ls : List (List String)) :
    (∀ x ∈ ls, x.length = w) → ls.foldl (fun m t => min m t.length) w = w := by
  induction ls with
  | nil => intro _; rfl
  | cons t ts ih =>
    intro h
    rw [List.foldl_cons, h t (List.mem_cons_self t ts), Nat.min_self]
    exact ih (fun x hx => h x (List.mem_cons_of_mem t hx))

lemma zipStarLen_eq (a : List (List String)) (w : Nat) (hne : a ≠ [])
    (hw : ∀ r ∈ a, r.length = w) : zipStarLen a = w := by
  cases a with
  | nil => exact absurd rfl hne
  | cons r rs =>
    show rs.foldl (fun m t => min m t.length) r.length = w
    rw [hw r (List.mem_cons_self r rs)]
    exact foldl_min_const w rs (fun x hx => hw x (List.mem_cons_of_mem r hx))

/-- Claim C7: on the same handler state and settings,
`get_output_array_transposed` is the exact transpose of `get_output_array`:
it has one row per output column (dimensions swapped), each of its rows has
one entry per output row, and cell `(j, i)` of the transpose equals cell
`(i, j)` of the non-transposed matrix. -/
theorem transposed_output_is_transpose (st : FileHandler) (nv : String) (ofn : Bool)
    (i j : Nat) (hi : i < (getOutputArray st nv ofn).length) (hj : j < rowWidth st ofn) :
    (getOutputArrayTransposed st nv ofn).length = rowWidth st ofn ∧
      ((getOutputArrayTransposed st nv ofn).getD j []).length =
        (getOutputArray st nv ofn).length ∧
      ((getOutputArrayTransposed st nv ofn).getD j []).getD i "" =
        ((getOutputArray st nv ofn).getD i []).getD j "" := by
  have hrows := getOutputArray_row_length st nv ofn
  have hAne : getOutputArray st nv ofn ≠ [] := by
    rw [getOutputArray_eq_blocks]; exact List.cons_ne_nil _ _
  have hlen : zipStarLen (getOutputArray st nv ofn) = rowWidth st ofn :=
    zipStarLen_eq _ _ hAne hrows
  unfold getOutputArrayTransposed zipStar
  rw [hlen]
  refine ⟨by simp, ?_⟩
  have hj' : j < (List.map
      (fun jj => (getOutputArray st nv ofn).map (fun r => r.getD jj ""))
      (List.range (rowWidth st ofn))).length := by simpa using hj
  have hrow : (List.map
      (fun jj => (getOutputArray st nv ofn).map (fun r => r.getD jj ""))
      (List.range (rowWidth st ofn))).getD j [] =
      (getOutputArray st nv ofn).map (fun r => r.getD j "") := by
    rw [List.getD_eq_getElem _ _ hj', List.getElem_map, List.getElem_range]
  rw [hrow]
  refine ⟨by simp, ?_⟩
  have hi' : i < ((getOutputArray st nv ofn).map (fun r => r.getD j "")).length := by
    simpa using hi
  rw [List.getD_eq_getElem _ _ hi', List.getElem_map, List.getD_eq_getElem _ _ hi]

theorem transposed_output_is_transpose_witness :
    (getOutputArrayTransposed
        ⟨"\t", ["f"], [("f", ⟨"f", ["a"], [[("a", "1")]]⟩)], [["a"]]⟩ "None" false).length =
      rowWidth ⟨"\t", ["f"], [("f", ⟨"f", ["a"], [[("a", "1")]]⟩)], [["a"]]⟩ false ∧
    ((getOutputArrayTransposed
        ⟨"\t", ["f"], [("f", ⟨"f", ["a"], [[("a", "1")]]⟩)], [["a"]]⟩ "None" false).getD 0 []).length =
      (getOutputArray
        ⟨"\t", ["f"], [("f", ⟨"f", ["a"], [[("a", "1")]]⟩)], [["a"]]⟩ "None" false).length ∧
    ((getOutputArrayTransposed
        ⟨"\t", ["f"], [("f", ⟨"f", ["a"], [[("a", "1")]]⟩)], [["a"]]⟩ "None" false).getD 0 []).getD 1 "" =
      ((getOutputArray
        ⟨"\t", ["f"], [("f", ⟨"f", ["a"], [[("a", "1")]]⟩)], [["a"]]⟩ "None" false).getD 1 []).getD 0 "" :=
  transposed_output_is_transpose
    ⟨"\t", ["f"], [("f", ⟨"f", ["a"], [[("a", "1")]]⟩)], [["a"]]⟩ "None" false 1 0
    (by decide) (by decide)

/-! ## Characterization of runs of add_file -/

lemma addFile_eq (st : FileHandler) (path : String) (lines : List String) :
    addFile st path lines =
      (readHeader st.delimiter lines).bind (fun hl =>
        (readData st.delimiter hl.1 hl.2).bind (fun rows =>
          .ok { st with
            file_name_arr := st.file_name_arr ++ [path],
            header_mapping := addHeaderArr st.header_mapping hl.1,
            file_data_mapping :=
              st.file_data_mapping ++ [(path, ⟨path, hl.1, rows⟩)] })) := rfl

lemma addFile_ok_char (st : FileHandler) (path : String) (lines : List String)
    (st' : FileHandler) (hok : addFile st path lines = .ok st') :
    st' = { st with
      file_name_arr := st.file_name_arr ++ [path],
      header_mapping := addHeaderArr st.header_mapping (fileHeaderOf st.delimiter lines),
      file_data_mapping :=
        st.file_data_mapping ++ [(path, fileDataOf st.delimiter path lines)] } := by
  rw [addFile_eq] at hok
  cases hrh : readHeader st.delimiter lines with
  | error e =>
    rw [hrh] at hok
    have hok' : (Except.error e : Except PyError FileHandler) = .ok st' := hok
    cases hok'
  | ok hl =>
    rw [hrh] at hok
    have hok1 : (readData st.delimiter hl.1 hl.2).bind (fun rows =>
        (Except.ok { st with
          file_name_arr := st.file_name_arr ++ [path],
          header_mapping := addHeaderArr st.header_mapping hl.1,
          file_data_mapping :=
            st.file_data_mapping ++ [(path, ⟨path, hl.1, rows⟩)] }
          : Except PyError FileHandler)) = .ok st' := hok
    cases hrd : readData st.delimiter hl.1 hl.2 with
    | error e =>
      rw [hrd] at hok1
      have hok' : (Except.error e : Except PyError FileHandler) = .ok st' := hok1
      cases hok'
    | ok rows =>
      rw [hrd] at hok1
      have hok' : Except.ok (ε := PyError) { st with
          file_name_arr := st.file_name_arr ++ [path],
          header_mapping := addHeaderArr st.header_mapping hl.1,
          file_data_mapping :=
            st.file_data_mapping ++ [(path, ⟨path, hl.1, rows⟩)] } = .ok st' := hok1
      have hfh : fileHeaderOf st.delimiter lines = hl.1 := by
        unfold fileHeaderOf
        rw [hrh]
      have hfdv : fileDataOf st.delimiter path lines = ⟨path, hl.1, rows⟩ := by
        unfold fileDataOf
        rw [hrh]
        show (match readData st.delimiter hl.1 hl.2 with
          | .ok rows =>
            ({ file_name := path, header_arr := hl.1, data_arr := rows } : FileData)
          | .error _ => { file_name := path, header_arr := hl.1, data_arr := [] }) = _
        rw [hrd]
      rw [hfh, hfdv]
      exact (Except.ok.inj hok').symm

lemma runFrom_ok_char (delim : String) (files : List (String × List String)) :
    ∀ (st st' : FileHandler), st.delimiter = delim →
      files.foldlM (fun s pf => addFile s pf.1 pf.2) st = .ok st' →
      st'.delimiter = delim ∧
      st'.file_name_arr = st.file_name_arr ++ files.map Prod.fst ∧
      st'.header_mapping = st.header_mapping ++
        files.map (fun pf => fileHeaderOf delim pf.2) ∧
      st'.file_data_mapping = st.file_data_mapping ++
        files.map (fun pf => (pf.1, fileDataOf delim pf.1 pf.2)) := by
  induction files with
  | nil =>
    intro st st' hd hok
    rw [List.foldlM_nil] at hok
    have hst : st = st' := Except.ok.inj hok
    subst hst
    simp [hd]
  | cons pf fs ih =>
    intro st st' hd hok
    rw [List.foldlM_cons] at hok
    cases hadd : addFile st pf.1 pf.2 with
    | error e =>
      rw [hadd] at hok
      have hok' : (Except.error e : Except PyError FileHandler) = .ok st' := hok
      cases hok'
    | ok st2 =>
      rw [hadd] at hok
      have hok2 : fs.foldlM (fun s pf => addFile s pf.1 pf.2) st2 = .ok st' := hok
      have hchar := addFile_ok_char st pf.1 pf.2 st2 hadd
      have hd2 : st2.delimiter = delim := by rw [hchar]; exact hd
      obtain ⟨hdl, hfn, hhm, hfd⟩ := ih st2 st' hd2 hok2
      refine ⟨hdl, ?_, ?_, ?_⟩
      · rw [hfn, hchar]
        simp [List.append_assoc]
      · rw [hhm, hchar]
        simp [addHeaderArr, hd, List.append_assoc]
      · rw [hfd, hchar]
        simp [hd, List.append_assoc]

lemma pyDictGet_go {α : Type} (k : String) (m : List (String × α)) :
    ∀ acc, m.foldl (fun acc kv => if kv.1 = k then some kv.2 else acc) acc =
      match pyDictGet m k with
      | some v => some v
      | none => acc := by
  induction m with
  | nil => intro acc; rfl
  | cons kv m ih =>
    intro acc
    rw [List.foldl_cons, ih]
    have hm : pyDictGet (kv :: m) k =
        match pyDictGet m k with
        | some v => some v
        | none => if kv.1 = k then some kv.2 else none := by
      show m.foldl _ (if kv.1 = k then some kv.2 else none) = _
      rw [ih]
    rw [hm]
    cases pyDictGet m k with
    | some v => rfl
    | none => by_cases hk : kv.1 = k <;> simp [hk]

lemma pyDictGet_cons {α : Type} (kv : String × α) (m : List (String × α)) (k : String) :
    pyDictGet (kv :: m) k =
      match pyDictGet m k with
      | some v => some v
      | none => if kv.1 = k then some kv.2 else none := by
  show m.foldl _ (if kv.1 = k then some kv.2 else none) = _
  rw [pyDictGet_go k m]

lemma pyDictGet_not_mem {α : Type} (m : List (String × α)) (k : String)
    (hk : k ∉ m.map Prod.fst) : pyDictGet m k = none := by
  induction m with
  | nil => rfl
  | cons kv m ih =>
    rw [pyDictGet_cons]
    have h1 : kv.1 ≠ k := fun h => hk (by simp [← h])
    rw [ih (fun h => hk (by simp [h]))]
    simp [h1]

lemma pyDictGet_nodup_mem {α : Type} (m : List (String × α)) (k : String) (v : α)
    (hnd : (m.map Prod.fst).Nodup) (hmem : (k, v) ∈ m) : pyDictGet m k = some v := by
  induction m with
  | nil => cases hmem
  | cons kv m ih =>
    rw [pyDictGet_cons]
    rw [List.map_cons, List.nodup_cons] at hnd
    rcases List.mem_cons.mp hmem with heq | hmem'
    · rw [← heq] at hnd ⊢
      rw [pyDictGet_not_mem m k hnd.1]
      simp
    · rw [ih hnd.2 hmem']

lemma pyDictGet_append_single {α : Type} (m : List (String × α)) (k k' : String) (v : α) :
    pyDictGet (m ++ [(k, v)]) k' = if k = k' then some v else pyDictGet m k' := by
  show (m ++ [(k, v)]).foldl _ none = _
  rw [List.foldl_append, List.foldl_cons, List.foldl_nil]
  rfl

lemma map_const_replicate (p : String) (Ls : List (List String)) :
    Ls.map (fun _ => p) = List.replicate Ls.length p := by
  induction Ls with
  | nil => rfl
  | cons l ls ih => rw [List.map_cons, ih, List.length_cons, List.replicate_succ]

/-- Claim C9: after ingesting files with pairwise-distinct paths, the data
rows of the unified table are the concatenation of each file's projected
row block in `add_file` order; each block is `get_ordered_output_array` of
that file's parsed rows, which projects the rows in the original order of
the file's data lines. -/
theorem output_rows_concat_in_file_order (delim nv : String) (ofn : Bool)
    (files : List (String × List String)) (st : FileHandler)
    (hnd : (files.map Prod.fst).Nodup)
    (hok : runFiles delim files = .ok st) :
    getOutputArray st nv ofn =
      (if ofn then "file_path" :: getHeader st.header_mapping
        else getHeader st.header_mapping) ::
      (files.map (fun pf =>
        getOrderedOutputArray (fileDataOf delim pf.1 pf.2)
          (getHeader st.header_mapping) nv ofn)).flatten := by
  obtain ⟨hdl, hfn, hhm, hfd⟩ :=
    runFrom_ok_char delim files (initFileHandler delim) st rfl hok
  rw [getOutputArray_eq_blocks]
  congr 1
  rw [hfn]
  simp only [initFileHandler, List.nil_append] at hfd ⊢
  rw [List.map_map]
  congr 1
  apply List.map_congr_left
  intro pf hpf
  have hkeys : ((files.map (fun pf => (pf.1, fileDataOf delim pf.1 pf.2))).map Prod.fst).Nodup := by
    rw [List.map_map]
    exact hnd
  have hlook : pyDictGet st.file_data_mapping pf.1 = some (fileDataOf delim pf.1 pf.2) := by
    rw [hfd]
    exact pyDictGet_nodup_mem _ _ _ hkeys
      (List.mem_map_of_mem (fun pf => (pf.1, fileDataOf delim pf.1 pf.2)) hpf)
  show getOrderedOutputArray ((pyDictGet st.file_data_mapping pf.1).getD ⟨"", [], []⟩)
      (getHeader st.header_mapping) nv ofn = _
  rw [hlook]
  rfl

theorem output_rows_concat_in_file_order_witness :
    getOutputArray
        ((runFiles "\t" [("f1", ["a\tb\n", "1\t2\n"]), ("f2", ["b\tc\n", "9\t8\n"])]).toOption.getD
          (initFileHandler "\t")) "None" false =
      (if false then "file_path" ::
          getHeader ((runFiles "\t" [("f1", ["a\tb\n", "1\t2\n"]),
            ("f2", ["b\tc\n", "9\t8\n"])]).toOption.getD
              (initFileHandler "\t")).header_mapping
        else getHeader ((runFiles "\t" [("f1", ["a\tb\n", "1\t2\n"]),
          ("f2", ["b\tc\n", "9\t8\n"])]).toOption.getD
            (initFileHandler "\t")).header_mapping) ::
      ([("f1", ["a\tb\n", "1\t2\n"]), ("f2", ["b\tc\n", "9\t8\n"])].map (fun pf =>
        getOrderedOutputArray (fileDataOf "\t" pf.1 pf.2)
          (getHeader ((runFiles "\t" [("f1", ["a\tb\n", "1\t2\n"]),
            ("f2", ["b\tc\n", "9\t8\n"])]).toOption.getD
              (initFileHandler "\t")).header_mapping) "None" false)).flatten :=
  output_rows_concat_in_file_order "\t" "None" false
    [("f1", ["a\tb\n", "1\t2\n"]), ("f2", ["b\tc\n", "9\t8\n"])]
    ((runFiles "\t" [("f1", ["a\tb\n", "1\t2\n"]), ("f2", ["b\tc\n", "9\t8\n"])]).toOption.getD
      (initFileHandler "\t"))
    (by decide) rfl

/-- Claim C10: when the same path is supplied k times, the path is appended
to `file_name_arr` each time while the dict entry is overwritten, so the
unified table holds k copies of the row block of the LAST ingestion of that
path and no rows from the earlier ingestions. -/
theorem duplicate_path_keeps_last_block (delim nv : String) (ofn : Bool) (p : String)
    (Ls : List (List String)) (L : List String) (st : FileHandler)
    (hok : runFiles delim (Ls.map (fun l => (p, l))) = .ok st)
    (hlast : Ls.getLast? = some L) :
    getOutputArray st nv ofn =
      (if ofn then "file_path" :: getHeader st.header_mapping
        else getHeader st.header_mapping) ::
      (List.replicate Ls.length
        (getOrderedOutputArray (fileDataOf delim p L)
          (getHeader st.header_mapping) nv ofn)).flatten := by
  obtain ⟨hdl, hfn, hhm, hfd⟩ :=
    runFrom_ok_char delim (Ls.map (fun l => (p, l))) (initFileHandler delim) st rfl hok
  obtain ⟨Ls', rfl⟩ := List.getLast?_eq_some_iff.mp hlast
  rw [getOutputArray_eq_blocks]
  congr 1
  simp only [initFileHandler, List.nil_append, List.map_map] at hfd hfn
  have hlook : pyDictGet st.file_data_mapping p = some (fileDataOf delim p L) := by
    rw [hfd]
    have hsplit : (Ls' ++ [L]).map ((fun pf : String × List String =>
        (pf.1, fileDataOf delim pf.1 pf.2)) ∘ (fun l : List String => (p, l))) =
        (Ls'.map (fun l => (p, fileDataOf delim p l))) ++ [(p, fileDataOf delim p L)] := by
      rw [List.map_append]; rfl
    rw [hsplit, pyDictGet_append_single]
    simp
  rw [hfn]
  have hnames : (Ls' ++ [L]).map (Prod.fst ∘ (fun l : List String => (p, l))) =
      List.replicate (Ls' ++ [L]).length p := by
    have hcomp : (Prod.fst ∘ (fun l : List String => (p, l))) =
        fun _ : List String => p := rfl
    rw [hcomp, map_const_replicate]
  rw [hnames, List.map_replicate]
  congr 2
  show getOrderedOutputArray ((pyDictGet st.file_data_mapping p).getD ⟨"", [], []⟩)
      (getHeader st.header_mapping) nv ofn = _
  rw [hlook]
  rfl

theorem duplicate_path_keeps_last_block_witness :
    getOutputArray
        ((runFiles "\t" ([["a\tb\n", "1\t2\n"], ["a\tb\n", "9\t8\n"]].map
          (fun l => ("f", l)))).toOption.getD (initFileHandler "\t")) "None" false =
      (if false then "file_path" ::
          getHeader ((runFiles "\t" ([["a\tb\n", "1\t2\n"], ["a\tb\n", "9\t8\n"]].map
            (fun l => ("f", l)))).toOption.getD (initFileHandler "\t")).header_mapping
        else getHeader ((runFiles "\t" ([["a\tb\n", "1\t2\n"], ["a\tb\n", "9\t8\n"]].map
          (fun l => ("f", l)))).toOption.getD (initFileHandler "\t")).header_mapping) ::
      (List.replicate ([["a\tb\n", "1\t2\n"], ["a\tb\n", "9\t8\n"]] : List (List String)).length
        (getOrderedOutputArray (fileDataOf "\t" "f" ["a\tb\n", "9\t8\n"])
          (getHeader ((runFiles "\t" ([["a\tb\n", "1\t2\n"], ["a\tb\n", "9\t8\n"]].map
            (fun l => ("f", l)))).toOption.getD (initFileHandler "\t")).header_mapping)
          "None" false)).flatten :=
  duplicate_path_keeps_last_block "\t" "None" false "f"
    [["a\tb\n", "1\t2\n"], ["a\tb\n", "9\t8\n"]] ["a\tb\n", "9\t8\n"]
    ((runFiles "\t" ([["a\tb\n", "1\t2\n"], ["a\tb\n", "9\t8\n"]].map
      (fun l => ("f", l)))).toOption.getD (initFileHandler "\t"))
    rfl rfl

end ReportCombiner
